import Mathlib

/-!
Verification of the AST rewriting engine of the `aura` repository
(`src/aura/analyzers/python/rewrite_ast.py` and
`src/aura/analyzers/python/visitor.py`).

The node classes (`String`, `Bytes`, `Number`, `Var`, `BinOp`, `Attribute`,
`Call`, `Import`) and the traversal `Context` live in `nodes.py`, which is not
part of the sources; where their behaviour matters it is modelled from the
specification and marked as such.  Python values that can occur in the tree
are embedded as the inductive `Node` below: typed AST nodes, raw mappings and
sequences from the parser, plain Python strings and `None`.
-/

namespace Aura

/-- Python exceptions that the rewrite rules can raise or catch.  `keyError`
and `typeError` arise from dictionary lookups, `attributeError` from missing
attributes, `valueError` from slicing with step 0, `lookupError` from
`codecs.getdecoder`, `decodeError` from a codec failing on malformed input
and `recursionError` from exceeding the interpreter recursion limit. -/
inductive PyErr where
  | keyError
  | typeError
  | attributeError
  | valueError
  | lookupError
  | decodeError
  | recursionError

/-- The universe of values appearing in the traversed tree: the typed AST
nodes of `nodes.py` (attributes as in the spec data model, each with an
optional line number), the two raw structural containers produced by the
parser (`Mapping`, `Sequence`), plain Python strings (`PyStr`) and Python
`None` (`PyNone`).  `Var.value`, `Attribute._original`, `Call.full_name` and
`Call._original` may be `None`, hence they are `Node`s themselves. -/
inductive Node where
  | PyNone
  | PyStr (s : String)
  | String (value : String) (line_no : Option Int)
  | Bytes (value : List Nat) (line_no : Option Int)
  | Number (value : Int) (line_no : Option Int)
  | Var (var_name : String) (value : Node) (line_no : Option Int)
  | BinOp (op : String) (left : Node) (right : Node) (line_no : Option Int)
  | Attribute (source : Node) (attr : String) (line_no : Option Int) (orig : Node)
  | Call (func : Node) (args : List Node) (kwargs : List (String × Node))
      (full_name : Node) (orig : Node) (line_no : Option Int)
  | Imp (names : List (String × String)) (line_no : Option Int)
  | Mapping (entries : List (String × Node))
  | Sequence (items : List Node)

/-- The symbol table ("stack") consulted by the rules: a name-to-node map.
The rewriter only reads it (`context.stack[source]`). -/
abbrev Stack := List (String × Node)

/-- `context.stack[source]` as performed by the rules: a plain string key is
looked up (`KeyError` when missing); any other value either is not hashable
the way the table expects or is simply not a key (`TypeError`/`KeyError`).
Both failures are caught at every use site, so they are merged into one
error value. -/
def stackLookup (stack : Stack) (key : Node) : Except Unit Node :=
  match key with
  | .PyStr s =>
    match List.lookup s stack with
    | some t => .ok t
    | none => .error ()
  | _ => .error ()

/-- `node.line_no` as a Python attribute access: raw strings, `None`,
mappings and sequences have no such attribute (`AttributeError`); AST nodes
return their (possibly `None`) line number. -/
def lineNoOf : Node → Except Unit (Option Int)
  | .PyNone => .error ()
  | .PyStr _ => .error ()
  | .Mapping _ => .error ()
  | .Sequence _ => .error ()
  | .String _ ln => .ok ln
  | .Bytes _ ln => .ok ln
  | .Number _ ln => .ok ln
  | .Var _ _ ln => .ok ln
  | .BinOp _ _ _ ln => .ok ln
  | .Attribute _ _ ln _ => .ok ln
  | .Call _ _ _ _ _ ln => .ok ln
  | .Imp _ ln => .ok ln

/-- Total variant of `lineNoOf`, used to state line-number properties. -/
def getLineOpt : Node → Option Int
  | .String _ ln => ln
  | .Bytes _ ln => ln
  | .Number _ ln => ln
  | .Var _ _ ln => ln
  | .BinOp _ _ _ ln => ln
  | .Attribute _ _ ln _ => ln
  | .Call _ _ _ _ _ ln => ln
  | .Imp _ ln => ln
  | _ => none

/-- Overwrite the line number of a typed AST node (no-op on other values). -/
def setLine : Node → Option Int → Node
  | .String v _, ln => .String v ln
  | .Bytes v _, ln => .Bytes v ln
  | .Number v _, ln => .Number v ln
  | .Var n v _, ln => .Var n v ln
  | .BinOp o l r _, ln => .BinOp o l r ln
  | .Attribute s a _ o, ln => .Attribute s a ln o
  | .Call f a k fn o _, ln => .Call f a k fn o ln
  | .Imp n _, ln => .Imp n ln
  | n, _ => n

/-- Modelled from the spec: `nodes.py` (the `Context` class) is not among
the sources.  Per the spec invariant "synthetic nodes inherit line number
from the node they replace when available", a replacement without an
explicit line number takes over the line number of the node it replaces. -/
def inheritLine (new old : Node) : Node :=
  match getLineOpt new with
  | some _ => new
  | none => setLine new (getLineOpt old)

/-- The observable side effects of one rule invocation on its context: the
node (if any) installed into the node's slot via `context.replace`, the
context's `modified` flag and the visitor's `modified` flag.  The two flags
are set by `Visitor._replace_generic` / `Visitor._replace_root`
(`visitor.py` lines 133-148); `rewrite_function_call` additionally sets the
visitor flag directly. -/
structure Effects where
  replacement : Option Node
  ctxModified : Bool
  visModified : Bool

/-- The effects record of a context before any rule has run. -/
def initEffects : Effects := ⟨none, false, false⟩

/-- `context.replace(new_node)`: installs the new node into the slot held by
the context (recorded in `Effects.replacement`) and sets both `modified`
flags, as `Visitor._replace_generic` does.  Line-number inheritance is
modelled from the spec (see `inheritLine`). -/
def ctxReplace (old new : Node) : Effects → Effects :=
  fun _e => ⟨some (inheritLine new old), true, true⟩

/-- Result type of one rewrite rule: the (possibly mutated) node the context
holds, the accumulated effects, and the truthiness of the rule's Python
return value. -/
abbrev RuleResult := Node × Effects × Bool

/-- Python index adjustment for extended slices (`PySlice_AdjustIndices`):
negative indices count from the end; for a positive step indices are clamped
to `[0, n]`, for a negative step to `[-1, n-1]`. -/
def adjustIndex (step : Int) (n : Nat) (i : Int) : Int :=
  if 0 < step then
    if i < 0 then max (i + n) 0 else min i n
  else
    if i < 0 then (if i + n < 0 then -1 else i + n) else min i ((n : Int) - 1)

/-- The index sequence of a Python extended slice: starting at `cur`, step
by `step` while strictly below `upper` (positive step) or strictly above it
(negative step).  Emitted indices are always non-negative after
`adjustIndex`.  The fuel only bounds recursion; `n + 1` suffices because
each emitted index moves at least one unit towards the bound and the
adjusted range spans at most `n + 1` units. -/
def sliceIdx (fuel : Nat) (cur upper step : Int) : List Nat :=
  match fuel with
  | 0 => []
  | f + 1 =>
    if (0 < step ∧ cur < upper) ∨ (step < 0 ∧ upper < cur) then
      cur.toNat :: sliceIdx f (cur + step) upper step
    else []

/-- `s[lower:upper:step]` on a Python string for `step ≠ 0`. -/
def pySliceCore (s : String) (lower upper step : Int) : String :=
  let n := s.length
  ⟨(sliceIdx (n + 1) (adjustIndex step n lower) (adjustIndex step n upper) step).map
     (fun i => s.toList.getD i ' ')⟩

/-- `s[lower:upper:step]` on a Python string; slicing with step `0` raises
`ValueError`. -/
def pySliceStr (s : String) (lower upper step : Int) : Except PyErr String :=
  if step = 0 then .error .valueError else .ok (pySliceCore s lower upper step)

/-- One slice bound as computed in `string_slice` (`rewrite_ast.py` lines
58-74): `context.node["slice"].get(key)` followed by the truthiness test.  A
missing key or a `None` entry is falsy and yields the default; a `Number`
node is truthy (plain object) and contributes its `value`.  Any other shape
raises in the Python code (`AttributeError` at `.value` or `TypeError` at
the slice); both are modelled as `typeError`. -/
def sliceParam (m : List (String × Node)) (key : String) (dflt : Int) :
    Except PyErr Int :=
  match m.lookup key with
  | none => .ok dflt
  | some .PyNone => .ok dflt
  | some (.Number v _) => .ok v
  | some _ => .error .typeError

/-- Python `str.replace` with all-occurrences, left-to-right semantics, by
fuel recursion on the subject (each step consumes at least one character, so
fuel `length + 1` is never exhausted before the subject empties).  An empty
pattern matches at every gap, as in Python. -/
def pyReplaceGo (fuel : Nat) (s pat new : List Char) : List Char :=
  match fuel with
  | 0 => s
  | f + 1 =>
    match s, pat with
    | [], [] => new
    | [], _ :: _ => []
    | c :: rest, [] => new ++ c :: pyReplaceGo f rest [] new
    | c :: rest, p :: ps =>
      if List.take (ps.length + 1) (c :: rest) = p :: ps then
        new ++ pyReplaceGo f (List.drop (ps.length + 1) (c :: rest)) (p :: ps) new
      else c :: pyReplaceGo f rest (p :: ps) new

/-- `s.replace(pat, new)` on Python strings. -/
def pyReplace (s pat new : String) : String :=
  ⟨pyReplaceGo (s.toList.length + 1) s.toList pat.toList new.toList⟩

/-- Result of a Python codec: textual (`str`) or binary (`bytes`). -/
inductive DecRes where
  | text (s : String)
  | bin (b : List Nat)

/-- A decode function of the host `codecs` registry: receives the input
bytes and the remaining positional arguments (error handlers and the like,
order preserved) and may fail on malformed input. -/
abbrev CodecFn := List Nat → List String → Except Unit DecRes

/-- The host `codecs` registry, keyed by encoding name. -/
abbrev CodecTable := List (String × CodecFn)

/-- Modelled from the spec: `str()` of an argument node (`nodes.py` is not
among the sources; per the spec a `String` node's textual value is its
`value`).  Only applied to values that passed the `String`/`str` guard. -/
def pyStrOf : Node → String
  | .PyStr s => s
  | .String v _ => v
  | _ => ""

/-- Modelled from the spec: `bytes()` of the decode source (`nodes.py` is
not among the sources; the spec says the codec is invoked "on the source
bytes", so a `String` contributes its character codes and `Bytes` its raw
bytes).  Only applied to values that passed the `String`/`Bytes` guard. -/
def bytesOf : Node → List Nat
  | .Bytes b _ => b
  | .String v _ => v.toList.map Char.toNat
  | _ => []

/-- Guard `type(node.func.source) in (String, Bytes)`. -/
def isStrOrBytes : Node → Bool
  | .String _ _ => true
  | .Bytes _ _ => true
  | _ => false

/-- Guard `type(x) in (String, str)` for call arguments. -/
def isStrArg : Node → Bool
  | .String _ _ => true
  | .PyStr _ => true
  | _ => false

/-- `codecs.decode(data, *args)`: the encoding is the first argument,
defaulting to `utf-8`; an unknown encoding raises `LookupError`, and a
failure of the codec itself on malformed input raises an error
(`decodeError` here, `binascii.Error`/`UnicodeDecodeError`/... in
Python). -/
def codecsDecode (table : CodecTable) (data : List Nat) (args : List String) :
    Except PyErr DecRes :=
  match List.lookup (args.headD "utf-8") table with
  | none => .error .lookupError
  | some f =>
    match f data args.tail with
    | .ok r => .ok r
    | .error _ => .error .decodeError

/-- Modelled from the spec: value of a base64 alphabet character. -/
def b64Val (c : Char) : Option Nat :=
  if 'A' ≤ c ∧ c ≤ 'Z' then some (c.toNat - 65)
  else if 'a' ≤ c ∧ c ≤ 'z' then some (c.toNat - 71)
  else if '0' ≤ c ∧ c ≤ '9' then some (c.toNat + 4)
  else if c = '+' then some 62
  else if c = '/' then some 63
  else none

/-- Modelled from the spec: the `base64` codec named in the spec's codec
list, decoding groups of four alphabet characters with strict padding; any
other shape is malformed input and fails (as `binascii.Error` does). -/
def b64DecodeCore : List Char → Except Unit (List Nat)
  | [] => .ok []
  | c1 :: c2 :: c3 :: c4 :: rest =>
    match b64Val c1, b64Val c2 with
    | some v1, some v2 =>
      if c3 = '=' then
        if c4 = '=' ∧ rest = [] then .ok [v1 * 4 + v2 / 16] else .error ()
      else
        match b64Val c3 with
        | some v3 =>
          if c4 = '=' then
            if rest = [] then .ok [v1 * 4 + v2 / 16, v2 % 16 * 16 + v3 / 4]
            else .error ()
          else
            match b64Val c4 with
            | some v4 =>
              match b64DecodeCore rest with
              | .ok tl =>
                .ok ([v1 * 4 + v2 / 16, v2 % 16 * 16 + v3 / 4, v3 % 4 * 64 + v4] ++ tl)
              | .error u => .error u
            | none => .error ()
        | none => .error ()
    | _, _ => .error ()
  | _ => .error ()

/-- Modelled from the spec: the `utf-8`/`ascii` text codecs of the spec's
codec list, restricted to the 7-bit range; bytes outside it are malformed
input and fail (as `UnicodeDecodeError` does). -/
def asciiDecode (data : List Nat) : Except Unit String :=
  if data.all (fun b => b < 128) then .ok ⟨data.map Char.ofNat⟩ else .error ()

/-- The `base64` entry of the modelled codec registry (binary result). -/
def b64CodecFn : CodecFn := fun data _ => (b64DecodeCore (data.map Char.ofNat)).map .bin

/-- The `utf-8` entry of the modelled codec registry (textual result). -/
def utf8CodecFn : CodecFn := fun data _ => (asciiDecode data).map .text

/-- A concrete instance of the modelled codec registry. -/
def modelCodecs : CodecTable := [("utf-8", utf8CodecFn), ("base64", b64CodecFn)]

/-- `node.full_name` as a Python attribute access.  `Call` nodes carry the
resolved name; raw strings, `None`, mappings and sequences have no such
attribute (`AttributeError`).  Modelled from the spec for the remaining
typed nodes (`nodes.py` is not among the sources): the attribute exists and
defaults to `None`. -/
def fullNameOf : Node → Except Unit Node
  | .Call _ _ _ fn _ _ => .ok fn
  | .PyNone => .error ()
  | .PyStr _ => .error ()
  | .Mapping _ => .error ()
  | .Sequence _ => .error ()
  | _ => .ok .PyNone

/-- The guarded middle branch of `rewrite_function_call` (`rewrite_ast.py`
lines 152-172): resolve the callee (a `Var` callee is looked up through the
call's current `_full_name`, any other through the callee itself), fetch the
fully qualified name (through the import alias map for an `Import` target,
through `full_name` otherwise) and accept it when it is a string different
from the current `_full_name` and the target is defined on a different
line.  Returns the new name when the branch fires; `none` both when one of
the caught exceptions (`TypeError`/`KeyError`/`AttributeError`) occurs and
when the guard is false — in either case control falls through to the last
branch. -/
def rfcBranch2 (stack : Stack) (func full_name : Node) (nodeLn : Option Int) :
    Option String :=
  match (match func with | .Var _ _ _ => full_name | f => f) with
  | .PyStr s =>
    match List.lookup s stack with
    | none => none
    | some target =>
      match (match target with
             | .Imp names _ =>
               (match List.lookup s names with
                | some fq => .ok (.PyStr fq)
                | none => .error ())
             | t => fullNameOf t : Except Unit Node) with
      | .error _ => none
      | .ok (.PyStr nm) =>
        match lineNoOf target with
        | .error _ => none
        | .ok tln =>
          let differs : Bool := match full_name with | .PyStr cur => cur != nm | _ => true
          if differs && (tln != nodeLn) then some nm else none
      | .ok _ => none
  | _ => none

namespace ASTRewrite

/-- `ASTRewrite.binop` (`rewrite_ast.py` lines 31-48): for a `BinOp` with
`op == "add"` and both operands `String`, replaces the node by a `String`
whose value is `right.value + left.value` and returns `True`; in every
other case it falls through and returns `None`. -/
def binop (_stack : Stack) (node : Node) (e : Effects) : Except PyErr RuleResult :=
  match node with
  | .BinOp op l r ln =>
    if op = "add" then
      match l, r with
      | .String lv lnl, .String rv lnr =>
        .ok (.BinOp op (.String lv lnl) (.String rv lnr) ln,
             ctxReplace (.BinOp op (.String lv lnl) (.String rv lnr) ln)
               (.String (rv ++ lv) none) e, true)
      | l', r' => .ok (.BinOp op l' r' ln, e, false)
    else .ok (.BinOp op l r ln, e, false)
  | n => .ok (n, e, false)

/-- `ASTRewrite.resolve_variable` (`rewrite_ast.py` lines 80-104): on an
`Attribute` node whose `source` is a name bound in the symbol table, looks
up the defining node.  A `TypeError`/`KeyError` from the lookup is caught
and the rule is a no-op.  If the definition is on the same line as the node
the rule does nothing.  Otherwise it records the old source in `_original`
and overwrites `source` with the target's bound value (for a `Var`) or the
target itself.  `target.line_no` on a value without that attribute raises
`AttributeError`, which this rule does not catch.  The `if target:`
truthiness test after the line comparison is modelled as always true: any
value that survived the `line_no` access is a node object, and plain node
objects are truthy.  The rule always returns `None` (falsy) and never
touches the modified flags. -/
def resolve_variable (stack : Stack) (node : Node) (e : Effects) :
    Except PyErr RuleResult :=
  match node with
  | .Attribute source attr ln orig =>
    match stackLookup stack source with
    | .error _ => .ok (.Attribute source attr ln orig, e, false)
    | .ok target =>
      match lineNoOf target with
      | .error _ => .error .attributeError
      | .ok tln =>
        if tln = ln then .ok (.Attribute source attr ln orig, e, false)
        else
          .ok (.Attribute (match target with | .Var _ v _ => v | t => t) attr ln source,
               e, false)
  | n => .ok (n, e, false)

/-- `ASTRewrite.string_slice` (`rewrite_ast.py` lines 50-78): on a raw
mapping with `_type == "Subscript"` whose `value` child is a `String`,
evaluates the slice with defaults `0`, `len(value)`, `1` and replaces the
node by the sliced `String`.  The accesses `node["value"]` and
`node["slice"]` are plain subscripts, so a missing key raises `KeyError`;
`slice.get` on a non-mapping raises `AttributeError`.  The rule returns
`None` (falsy) even when it replaces. -/
def string_slice (_stack : Stack) (node : Node) (e : Effects) :
    Except PyErr RuleResult :=
  match node with
  | .Mapping entries =>
    match entries.lookup "_type" with
    | some (.PyStr "Subscript") =>
      match entries.lookup "value" with
      | none => .error .keyError
      | some (.String sv _svln) =>
        match entries.lookup "slice" with
        | none => .error .keyError
        | some (.Mapping se) =>
          match sliceParam se "lower" 0 with
          | .error err => .error err
          | .ok lower =>
            match sliceParam se "upper" (sv.length : Int) with
            | .error err => .error err
            | .ok upper =>
              match sliceParam se "step" 1 with
              | .error err => .error err
              | .ok step =>
                match pySliceStr sv lower upper step with
                | .error err => .error err
                | .ok sliced =>
                  .ok (node, ctxReplace node (.String sliced none) e, false)
        | some _ => .error .attributeError
      | some _ => .ok (node, e, false)
    | _ => .ok (node, e, false)
  | n => .ok (n, e, false)

/-- `ASTRewrite.inline_decode` (`rewrite_ast.py` lines 106-135): on a
`Call` whose callee is an `Attribute` with `attr == "decode"` and a
`String`/`Bytes` source, with every positional argument a `String` node or
plain `str`: when at least one argument is present, `codecs.getdecoder` is
probed on the first one and a `LookupError` is caught, making the rule a
no-op; then `codecs.decode(bytes(source), *args)` runs *outside* any
handler, so a codec failure on malformed input propagates out of the rule.
On success the result replaces the call (textual to `String`, binary to
`Bytes`, carrying the call's line number) and the rule returns `None`
(falsy). -/
def inline_decode (codecs : CodecTable) (_stack : Stack) (node : Node)
    (e : Effects) : Except PyErr RuleResult :=
  match node with
  | .Call (.Attribute fsource fattr _fln _forig) args _kwargs _fn _orig ln =>
    if fattr = "decode" ∧ isStrOrBytes fsource = true then
      if args.all isStrArg then
        if (match args with
            | [] => true
            | a0 :: _ => (List.lookup (pyStrOf a0) codecs).isSome) then
          match codecsDecode codecs (bytesOf fsource) (args.map pyStrOf) with
          | .error err => .error err
          | .ok (.text s) => .ok (node, ctxReplace node (.String s ln) e, false)
          | .ok (.bin b) => .ok (node, ctxReplace node (.Bytes b ln) e, false)
        else .ok (node, e, false)
      else .ok (node, e, false)
    else .ok (node, e, false)
  | n => .ok (n, e, false)

/-- `ASTRewrite.rewrite_function_call` (`rewrite_ast.py` lines 137-181), on
a `Call` node.  First branch: a call with no resolved full name whose
callee is an `Import` and whose `_original` is a bare name gets
`_full_name` from the import alias map — the subscript
`func.names[_original]` is outside any handler, so a missing alias raises
`KeyError`; this branch returns `True` without touching any modified flag.
Second branch (see `rfcBranch2`): on success sets `_full_name`, sets the
visitor's modified flag and returns `True`.  Third branch: a bare-string
callee bound in the symbol table is replaced by its target, the old name
going to `_original`, with the visitor's modified flag set and `True`
returned. -/
def rewrite_function_call (stack : Stack) (node : Node) (e : Effects) :
    Except PyErr RuleResult :=
  match node with
  | .Call func args kwargs full_name orig ln =>
    match func, full_name, orig with
    | .Imp names iln, .PyNone, .PyStr o =>
      match List.lookup o names with
      | some fq =>
        .ok (.Call (.Imp names iln) args kwargs (.PyStr fq) (.PyStr o) ln, e, true)
      | none => .error .keyError
    | _, _, _ =>
      match rfcBranch2 stack func full_name ln with
      | some nm =>
        .ok (.Call func args kwargs (.PyStr nm) orig ln,
             ⟨e.replacement, e.ctxModified, true⟩, true)
      | none =>
        match func with
        | .PyStr fs =>
          match List.lookup fs stack with
          | some tgt =>
            .ok (.Call tgt args kwargs full_name (.PyStr fs) ln,
                 ⟨e.replacement, e.ctxModified, true⟩, true)
          | none => .ok (node, e, false)
        | _ => .ok (node, e, false)
  | n => .ok (n, e, false)

/-- `ASTRewrite.replace_string` (`rewrite_ast.py` lines 191-230): on a
`Call` whose callee is an `Attribute` with `attr == "replace"` and `String`
source, and whose first two positional arguments are `String`s, replaces
the call with the `String` obtained by `str.replace`.  Only
`len(args) < 2` and the types of the first two arguments are checked:
additional positional arguments and keyword arguments are ignored.  The
rule returns `None` (falsy) even when it replaces. -/
def replace_string (_stack : Stack) (node : Node) (e : Effects) :
    Except PyErr RuleResult :=
  match node with
  | .Call func args _kwargs _fn _orig _ln =>
    match func with
    | .Attribute fsource fattr _fln _forig =>
      if fattr = "replace" then
        match fsource with
        | .String sv _sln =>
          match args with
          | .String a0 _l0 :: .String a1 _l1 :: _restArgs =>
            .ok (node, ctxReplace node (.String (pyReplace sv a0 a1) none) e, false)
          | _ => .ok (node, e, false)
        | _ => .ok (node, e, false)
      else .ok (node, e, false)
    | _ => .ok (node, e, false)
  | n => .ok (n, e, false)

end ASTRewrite

/-- The node that `resolve_variable` installs as the new `source`: a `Var`'s
bound value, or the defining node itself. -/
def resolveTarget : Node → Node
  | .Var _ v _ => v
  | t => t

/-- Predicate: the node is a `String` AST node. -/
def isStringNode : Node → Bool
  | .String _ _ => true
  | _ => false

/-- Predicate: the node is a `BinOp` AST node. -/
def isBinOpNode : Node → Bool
  | .BinOp _ _ _ _ => true
  | _ => false

/-- A slice-field entry of a raw `Subscript` mapping: present with a
`Number` value, or absent. -/
def sliceEntry (k : String) (o : Option Int) : List (String × Node) :=
  match o with
  | some v => [(k, .Number v none)]
  | none => []

/-- A raw `Subscript` mapping over a `String` value with optional `Number`
slice bounds, as produced by the parser. -/
def mkSubscript (v : String) (vln : Option Int) (lo hi st : Option Int) : Node :=
  .Mapping [("_type", .PyStr "Subscript"), ("value", .String v vln),
            ("slice", .Mapping (sliceEntry "lower" lo ++ sliceEntry "upper" hi ++
              sliceEntry "step" st))]

/-- The names of the six rewrite rules, for stating dispatch properties. -/
inductive RuleName where
  | binop
  | resolve_variable
  | string_slice
  | inline_decode
  | rewrite_function_call
  | replace_string

/-- The fixed rule order of `ASTRewrite.__init__` (`rewrite_ast.py` lines
15-24). -/
def ruleOrder : List RuleName :=
  [.binop, .resolve_variable, .string_slice, .inline_decode,
   .rewrite_function_call, .replace_string]

/-- Dispatch a rule by name. -/
def applyRule (codecs : CodecTable) (stack : Stack) :
    RuleName → Node → Effects → Except PyErr RuleResult
  | .binop => ASTRewrite.binop stack
  | .resolve_variable => ASTRewrite.resolve_variable stack
  | .string_slice => ASTRewrite.string_slice stack
  | .inline_decode => ASTRewrite.inline_decode codecs stack
  | .rewrite_function_call => ASTRewrite.rewrite_function_call stack
  | .replace_string => ASTRewrite.replace_string stack

/-- `ASTRewrite._visit_node` (`rewrite_ast.py` lines 26-29): try the rules
in order on the context, stopping after the first rule whose return value
is truthy; node mutations and effects accumulate across rules.  The
returned list records which rules were invoked, in order. -/
def visitNode (codecs : CodecTable) (stack : Stack) :
    List RuleName → Node → Effects → Except PyErr (Node × Effects × List RuleName)
  | [], node, e => .ok (node, e, [])
  | r :: rs, node, e =>
    match applyRule codecs stack r node e with
    | .error err => .error err
    | .ok (n1, e1, ret) =>
      if ret then .ok (n1, e1, [r])
      else
        match visitNode codecs stack rs n1 e1 with
        | .error err => .error err
        | .ok (n2, e2, tr) => .ok (n2, e2, r :: tr)

/-- The `ignore_error` decorator on `Visitor.__process_context`
(`visitor.py` lines 33-45, 219): only `RecursionError` is caught (and
logged, yielding no result); every other exception propagates and aborts
the traversal. -/
def ignoreError (x : Except PyErr RuleResult) : Except PyErr (Option RuleResult) :=
  match x with
  | .ok a => .ok (some a)
  | .error .recursionError => .ok none
  | .error err => .error err

/-- The four rules that synthesize replacement nodes (the rules C9 ranges
over). -/
def synthRule : RuleName → Bool
  | .binop => true
  | .string_slice => true
  | .inline_decode => true
  | .replace_string => true
  | _ => false

/-- State of the outer loop of `Visitor.traverse` (`visitor.py` lines
150-217): the `modified` flag, the pass counter `iteration` and the
`convergence` counter (an `int` in the source, initialized to 1). -/
structure DriverState where
  modified : Bool
  iteration : Nat
  convergence : Int

/-- The driver state at entry of `traverse`: `modified` and `iteration` are
reset (`visitor.py` lines 61-64, 159), `convergence` starts at 1 (line
64). -/
def initDriver : DriverState := ⟨false, 0, 1⟩

/-- One iteration of the outer loop body (`visitor.py` lines 162-195): the
convergence update reads the previous pass's `modified` flag (decrement
when it was false and `convergence > 0`, reset to 1 otherwise), `modified`
is cleared and then set by the pass itself, and `iteration` is incremented.
What a pass does to the tree is abstracted into `pm`, the sequence of
`modified` flags the passes produce (`pm k` is the flag after the pass with
`iteration = k`); the loop logic in the source does not inspect the tree in
any other way. -/
def loopBody (pm : Nat → Bool) (s : DriverState) : DriverState :=
  ⟨pm s.iteration, s.iteration + 1,
   if s.modified = false ∧ 0 < s.convergence then s.convergence - 1 else 1⟩

/-- The outer `while` loop of `Visitor.traverse` (`visitor.py` lines
161-197): continue while `iteration == 0 or modified or convergence` (an
`int` is truthy iff non-zero), and `break` as soon as
`iteration >= max_iterations` after a pass.  The fuel only bounds
recursion: from `initDriver`, `maxIter + 1` is never exhausted, because the
loop breaks once `iteration`, incremented by every pass, reaches
`maxIter`. -/
def traverseLoop (pm : Nat → Bool) (maxIter : Nat) : Nat → DriverState → DriverState
  | 0, s => s
  | f + 1, s =>
    if s.iteration = 0 ∨ s.modified = true ∨ s.convergence ≠ 0 then
      let s' := loopBody pm s
      if maxIter ≤ s'.iteration then s' else traverseLoop pm maxIter f s'
    else s

/-- `Visitor.traverse` driving the outer loop from the initial state; the
resulting `iteration` field is the number of passes made. -/
def traverseDriver (pm : Nat → Bool) (maxIter : Nat) : DriverState :=
  traverseLoop pm maxIter (maxIter + 1) initDriver

/-- State of the queue-drain loop inside one pass (`visitor.py` lines
181-193): the pending FIFO queue of contexts (abbreviated to the identity
of the node each context holds) and the identities already processed, in
processing order. -/
structure DrainState where
  queue : List Nat
  processed : List Nat

/-- One step of the drain loop (`visitor.py` lines 183-193): pop the head
context; if its node identity was already processed in this pass, skip it
without visiting; otherwise visit it — which may enqueue any children or
aliased nodes, abstracted as `visit` — and record its identity.  (The
`max_queue_size` guard only drops enqueued items and cannot introduce
duplicates, so it is omitted here.) -/
def drainStep (visit : Nat → List Nat) (s : DrainState) : DrainState :=
  match s.queue with
  | [] => s
  | i :: rest =>
    if i ∈ s.processed then ⟨rest, s.processed⟩
    else ⟨rest ++ visit i, s.processed ++ [i]⟩

/-- One drain step preserves duplicate-freedom of the processed list: a
context is only recorded (and visited) when its node identity is new. -/
theorem drainStep_nodup (visit : Nat → List Nat) (s : DrainState)
    (h : s.processed.Nodup) : (drainStep visit s).processed.Nodup := by
  rcases s with ⟨q, p⟩
  cases q with
  | nil => simpa [drainStep]
  | cons i rest =>
    by_cases hm : i ∈ p
    · simpa [drainStep, hm]
    · simp [drainStep, hm, List.nodup_append, h]

/-- C6: in one pass, the list of node identities actually processed by the
drain loop never contains a duplicate, for every visit behaviour (including
one that re-enqueues aliased or already seen nodes) and every initial
queue; and a dequeued context whose node identity was already processed is
dropped without invoking the visit (the queue just shrinks and nothing is
recorded). -/
theorem traverse_pass_no_duplicate_processing :
    (∀ (visit : Nat → List Nat) (q0 : List Nat) (n : Nat),
      ((drainStep visit)^[n] ⟨q0, []⟩).processed.Nodup)
    ∧ (∀ (visit : Nat → List Nat) (i : Nat) (rest processed : List Nat),
      i ∈ processed →
      drainStep visit ⟨i :: rest, processed⟩ = ⟨rest, processed⟩) := by
  constructor
  · intro visit q0 n
    have key : ∀ (s : DrainState), s.processed.Nodup →
        ((drainStep visit)^[n] s).processed.Nodup := by
      induction n with
      | zero => intro s h; simpa
      | succ k ih =>
        intro s h
        rw [Function.iterate_succ_apply]
        exact ih _ (drainStep_nodup visit s h)
    exact key ⟨q0, []⟩ (by simp)
  · intro visit i rest processed hm
    simp [drainStep, hm]

/-- Witness for C6: a visit that always re-enqueues node 1 never gets node
1 processed twice, and a context whose identity was already seen is skipped
unchanged. -/
theorem traverse_pass_no_duplicate_processing_witness :
    (1 ∈ ([1] : List Nat))
    ∧ drainStep (fun _ => [1]) ⟨[1, 2], [1]⟩ = ⟨[2], [1]⟩
    ∧ ((drainStep (fun _ => [1]))^[3] ⟨[1], []⟩).processed.Nodup := by
  refine ⟨by decide, ?_, ?_⟩
  · exact traverse_pass_no_duplicate_processing.2 (fun _ => [1]) 1 [2] [1] (by decide)
  · exact traverse_pass_no_duplicate_processing.1 (fun _ => [1]) [1] 3

/-- From any state whose pass counter is still below the cap, the outer
loop can only stop at a counter below or at the cap: every pass increments
`iteration` and the loop breaks as soon as `maxIter ≤ iteration`. -/
theorem traverseLoop_le (pm : Nat → Bool) (maxIter : Nat) :
    ∀ (fuel : Nat) (s : DriverState), s.iteration < maxIter →
      (traverseLoop pm maxIter fuel s).iteration ≤ maxIter := by
  intro fuel
  induction fuel with
  | zero => intro s h; simp only [traverseLoop]; omega
  | succ f ih =>
    intro s h
    simp only [traverseLoop]
    split
    · split
      · next hbreak => simp only [loopBody]; omega
      · next hnb =>
        exact ih (loopBody pm s) (by simp only [loopBody] at hnb ⊢; omega)
    · omega

/-- With every pass reporting a modification, the loop keeps running until
the cap is reached exactly. -/
theorem traverseLoop_cap_exact (maxIter : Nat) :
    ∀ (fuel : Nat) (s : DriverState),
      s.iteration < maxIter → maxIter ≤ fuel + s.iteration →
      (s.iteration = 0 ∨ s.modified = true) →
      (traverseLoop (fun _ => true) maxIter fuel s).iteration = maxIter := by
  intro fuel
  induction fuel with
  | zero => intro s h1 h2 _; omega
  | succ f ih =>
    intro s h1 h2 hcond
    simp only [traverseLoop]
    rw [if_pos (hcond.imp id Or.inl)]
    by_cases hb : maxIter ≤ (loopBody (fun _ => true) s).iteration
    · rw [if_pos hb]
      simp only [loopBody] at hb ⊢
      omega
    · rw [if_neg hb]
      exact ih (loopBody (fun _ => true) s)
        (by simp only [loopBody] at hb ⊢; omega)
        (by simp only [loopBody] at hb ⊢; omega)
        (Or.inr rfl)

/-- C4: for every pass behaviour and every cap of at least one pass, the
driver halts after at most `max_iterations` passes; and the cap is what
stops it — with a pass that always modifies (and so would demand another
pass forever), the driver still stops, after exactly `max_iterations`
passes. -/
theorem traverse_halts_within_max_iterations :
    (∀ (pm : Nat → Bool) (maxIter : Nat), 1 ≤ maxIter →
      (traverseDriver pm maxIter).iteration ≤ maxIter)
    ∧ (∀ (maxIter : Nat), 1 ≤ maxIter →
      (traverseDriver (fun _ => true) maxIter).iteration = maxIter) := by
  constructor
  · intro pm maxIter h
    exact traverseLoop_le pm maxIter (maxIter + 1) initDriver (by simp [initDriver]; omega)
  · intro maxIter h
    exact traverseLoop_cap_exact maxIter (maxIter + 1) initDriver
      (by simp [initDriver]; omega) (by simp [initDriver]) (Or.inl rfl)

/-- Witness for C4: with a cap of 3 passes and an always-modifying pass the
driver performs exactly 3 passes, and in particular at most 3. -/
theorem traverse_halts_within_max_iterations_witness :
    (1 ≤ 3)
    ∧ (traverseDriver (fun _ => true) 3).iteration ≤ 3
    ∧ (traverseDriver (fun _ => true) 3).iteration = 3 := by
  exact ⟨by decide,
    traverse_halts_within_max_iterations.1 (fun _ => true) 3 (by decide),
    traverse_halts_within_max_iterations.2 3 (by decide)⟩

/-- One unfolding of the outer loop (definitional). -/
theorem traverseLoop_step (pm : Nat → Bool) (maxIter f : Nat) (s : DriverState) :
    traverseLoop pm maxIter (f + 1) s =
      if s.iteration = 0 ∨ s.modified = true ∨ s.convergence ≠ 0 then
        (if maxIter ≤ s.iteration + 1 then loopBody pm s
         else traverseLoop pm maxIter f (loopBody pm s))
      else s := rfl

/-- From a state reached by a modified pass, two consecutive quiet passes
end the loop: the first one finds `convergence` reset to 1 and consumes it,
the second one finds `modified` false and `convergence` 0 and the loop
condition fails.  Exactly two more passes run (cap permitting). -/
theorem traverseLoop_quiet_two (pm : Nat → Bool) (maxIter : Nat) :
    ∀ (fuel : Nat) (s : DriverState),
      s.modified = true →
      pm s.iteration = false → pm (s.iteration + 1) = false →
      s.iteration + 2 ≤ maxIter → maxIter ≤ fuel + s.iteration →
      (traverseLoop pm maxIter fuel s).iteration = s.iteration + 2 := by
  intro fuel s hm h0 h1 hle hfuel
  obtain ⟨f2, rfl⟩ : ∃ f2, fuel = f2 + 2 := ⟨fuel - 2, by omega⟩
  rw [traverseLoop_step, if_pos (Or.inr (Or.inl hm)),
    if_neg (show ¬ maxIter ≤ s.iteration + 1 by omega)]
  have hs1m : (loopBody pm s).modified = false := h0
  have hs1c : (loopBody pm s).convergence = 1 := by
    show (if s.modified = false ∧ 0 < s.convergence then s.convergence - 1 else 1) = 1
    rw [if_neg (by simp [hm])]
  rw [traverseLoop_step, if_pos (Or.inr (Or.inr (by rw [hs1c]; exact one_ne_zero)))]
  have hs2m : (loopBody pm (loopBody pm s)).modified = false := h1
  have hs2c : (loopBody pm (loopBody pm s)).convergence = 0 := by
    show (if (loopBody pm s).modified = false ∧ 0 < (loopBody pm s).convergence
          then (loopBody pm s).convergence - 1 else 1) = 0
    rw [if_pos (by rw [hs1m, hs1c]; exact ⟨rfl, by norm_num⟩), hs1c]
    norm_num
  by_cases hb : maxIter ≤ (loopBody pm s).iteration + 1
  · rw [if_pos hb]
    rfl
  · rw [if_neg hb]
    cases f2 with
    | zero => rfl
    | succ f3 =>
      have hcond : ¬ ((loopBody pm (loopBody pm s)).iteration = 0 ∨
          (loopBody pm (loopBody pm s)).modified = true ∨
          (loopBody pm (loopBody pm s)).convergence ≠ 0) := by
        intro hcon
        rcases hcon with h | h | h
        · exact absurd (show s.iteration + 2 = 0 from h) (by omega)
        · rw [hs2m] at h
          exact Bool.false_ne_true h
        · rw [hs2c] at h
          exact h rfl
      rw [traverseLoop_step, if_neg hcond]
      rfl

/-- A run of modifying passes followed by two quiet passes: the loop
executes all the modifying passes, then the first quiet pass, then exactly
one extra pass, and stops. -/
theorem traverseLoop_run (pm : Nat → Bool) (maxIter : Nat) :
    ∀ (j : Nat) (fuel : Nat) (s : DriverState),
      s.modified = true →
      (∀ i, i < j → pm (s.iteration + i) = true) →
      pm (s.iteration + j) = false → pm (s.iteration + j + 1) = false →
      s.iteration + j + 2 ≤ maxIter → maxIter ≤ fuel + s.iteration →
      (traverseLoop pm maxIter fuel s).iteration = s.iteration + j + 2 := by
  intro j
  induction j with
  | zero =>
    intro fuel s hm _ h0 h1 hle hfuel
    simpa using traverseLoop_quiet_two pm maxIter fuel s hm
      (by simpa using h0) (by simpa using h1) (by omega) hfuel
  | succ jj ih =>
    intro fuel s hm hpre h0 h1 hle hfuel
    obtain ⟨f1, rfl⟩ : ∃ f1, fuel = f1 + 1 := ⟨fuel - 1, by omega⟩
    rw [traverseLoop_step, if_pos (Or.inr (Or.inl hm)),
      if_neg (show ¬ maxIter ≤ s.iteration + 1 by omega)]
    have hres := ih f1 (loopBody pm s)
      (show pm s.iteration = true by simpa using hpre 0 (by omega))
      (by
        intro i hi
        show pm (s.iteration + 1 + i) = true
        have h := hpre (i + 1) (by omega)
        rwa [show s.iteration + (i + 1) = s.iteration + 1 + i by omega] at h)
      (show pm (s.iteration + 1 + jj) = false by
        rwa [show s.iteration + 1 + jj = s.iteration + (jj + 1) by omega])
      (show pm (s.iteration + 1 + jj + 1) = false by
        rwa [show s.iteration + 1 + jj + 1 = s.iteration + (jj + 1) + 1 by omega])
      (show s.iteration + 1 + jj + 2 ≤ maxIter by omega)
      (show maxIter ≤ f1 + (s.iteration + 1) by omega)
    rw [show (traverseLoop pm maxIter f1 (loopBody pm s)).iteration =
        s.iteration + 1 + jj + 2 from hres]
    omega

/-- C5: the outer loop continues while `iteration == 0`, or `modified`, or
the convergence counter is non-zero; the counter starts at 1.  For every
pass behaviour that modifies on each of the first `j ≥ 1` passes and is
then quiet twice, the driver performs exactly `j + 2` passes (cap
permitting): the quiet pass after the modified ones is followed by exactly
one extra pass, and when that extra pass is also quiet the driver halts. -/
theorem traverse_convergence_extra_pass :
    ∀ (pm : Nat → Bool) (maxIter j : Nat),
      1 ≤ j →
      (∀ i, i < j → pm i = true) →
      pm j = false → pm (j + 1) = false →
      j + 2 ≤ maxIter →
      initDriver.convergence = 1 ∧ (traverseDriver pm maxIter).iteration = j + 2 := by
  intro pm maxIter j hj hpre h0 h1 hle
  refine ⟨rfl, ?_⟩
  have hp0 : pm 0 = true := hpre 0 (by omega)
  show (traverseLoop pm maxIter (maxIter + 1) initDriver).iteration = j + 2
  rw [traverseLoop_step]
  simp only [initDriver]
  rw [if_pos (Or.inl trivial), if_neg (show ¬ maxIter ≤ 0 + 1 by omega)]
  rw [show loopBody pm ⟨false, 0, 1⟩ = ⟨true, 1, 0⟩ from by simp [loopBody, hp0]]
  have hres := traverseLoop_run pm maxIter (j - 1) maxIter ⟨true, 1, 0⟩ rfl
    (by
      intro i hi
      show pm (1 + i) = true
      exact hpre (1 + i) (by omega))
    (show pm (1 + (j - 1)) = false by rwa [show 1 + (j - 1) = j by omega])
    (show pm (1 + (j - 1) + 1) = false by rwa [show 1 + (j - 1) + 1 = j + 1 by omega])
    (show 1 + (j - 1) + 2 ≤ maxIter by omega)
    (show maxIter ≤ maxIter + 1 by omega)
  rw [show (traverseLoop pm maxIter maxIter (⟨true, 1, 0⟩ : DriverState)).iteration =
      1 + (j - 1) + 2 from hres]
  omega

/-- Witness for C5: a pass behaviour that modifies on the first pass and is
quiet afterwards makes the driver converge in exactly 3 passes under a cap
of 10, with the convergence counter starting at 1. -/
theorem traverse_convergence_extra_pass_witness :
    ((fun i : Nat => i == 0) 1 = false)
    ∧ initDriver.convergence = 1
    ∧ (traverseDriver (fun i : Nat => i == 0) 10).iteration = 3 := by
  have h := traverse_convergence_extra_pass (fun i : Nat => i == 0) 10 1
    (by decide) (fun i hi => by rw [Nat.lt_one_iff.mp hi]; rfl)
    (by decide) (by decide) (by decide)
  exact ⟨rfl, h.1, h.2⟩

/-- C1: for every `BinOp` whose operator is `add` and whose operands are
both `String` nodes, `binop` replaces the node with a `String` whose value
is the right operand's value concatenated with the left operand's value
(the replacement inheriting the `BinOp`'s line number), reports applied,
and leaves the context node itself untouched; for any other operator,
operand shape, or node kind, it leaves node and effects unchanged and
reports not applied. -/
theorem binop_add_strings :
    (∀ (stack : Stack) (lv rv : String) (l1 l2 ln : Option Int) (e : Effects),
      ASTRewrite.binop stack (.BinOp "add" (.String lv l1) (.String rv l2) ln) e =
        .ok (.BinOp "add" (.String lv l1) (.String rv l2) ln,
             ⟨some (.String (rv ++ lv) ln), true, true⟩, true))
    ∧ (∀ (stack : Stack) (op : String) (l r : Node) (ln : Option Int) (e : Effects),
      (op ≠ "add" ∨ isStringNode l = false ∨ isStringNode r = false) →
      ASTRewrite.binop stack (.BinOp op l r ln) e = .ok (.BinOp op l r ln, e, false))
    ∧ (∀ (stack : Stack) (node : Node) (e : Effects),
      isBinOpNode node = false →
      ASTRewrite.binop stack node e = .ok (node, e, false)) := by
  refine ⟨?_, ?_, ?_⟩
  · intro stack lv rv l1 l2 ln e
    rfl
  · intro stack op l r ln e h
    by_cases hop : op = "add"
    · subst hop
      rcases h with h | h | h
      · exact absurd rfl h
      · cases l <;> cases r <;> simp [ASTRewrite.binop, isStringNode] at h ⊢
      · cases l <;> cases r <;> simp [ASTRewrite.binop, isStringNode] at h ⊢
    · cases l <;> cases r <;> simp [ASTRewrite.binop, hop]
  · intro stack node e h
    cases node <;> simp [isBinOpNode] at h ⊢ <;> rfl

/-- Witness for C1 at the spec's concrete example: folding
`BinOp(op=add, left=String("ab"), right=String("cd"))` yields
`String("cdab")` with both modified flags set. -/
theorem binop_add_strings_witness :
    ASTRewrite.binop [] (.BinOp "add" (.String "ab" none) (.String "cd" none) none)
      initEffects =
      .ok (.BinOp "add" (.String "ab" none) (.String "cd" none) none,
           ⟨some (.String "cdab" none), true, true⟩, true)
    ∧ "cd" ++ "ab" = "cdab" := by
  exact ⟨binop_add_strings.1 [] "ab" "cd" none none none initEffects, rfl⟩

/-- C10: `resolve_variable` mutates the `Attribute` node in place (rewriting
`source` and recording the old source in `_original`) but never changes the
context's or the visitor's modified flags and always reports not applied —
unlike `context.replace`, which sets both flags.  Consequently the mutation
neither suppresses descent in the current pass nor forces another pass by
itself. -/
theorem resolve_variable_frame :
    (∀ (stack : Stack) (node : Node) (e : Effects) (out : RuleResult),
      ASTRewrite.resolve_variable stack node e = .ok out →
      out.2.1 = e ∧ out.2.2 = false)
    ∧ (∀ (old new : Node) (e : Effects),
      (ctxReplace old new e).ctxModified = true ∧ (ctxReplace old new e).visModified = true)
    ∧ (∀ (stack : Stack) (name attr : String) (ln : Option Int) (orig : Node)
        (e : Effects) (target : Node) (tln : Option Int),
      List.lookup name stack = some target →
      lineNoOf target = .ok tln →
      tln ≠ ln →
      ASTRewrite.resolve_variable stack (.Attribute (.PyStr name) attr ln orig) e =
        .ok (.Attribute (resolveTarget target) attr ln (.PyStr name), e, false)) := by
  refine ⟨?_, ?_, ?_⟩
  · intro stack node e out h
    cases node <;> simp only [ASTRewrite.resolve_variable] at h <;>
      (repeat' split at h) <;>
      first
        | (injection h with h; subst h; exact ⟨rfl, rfl⟩)
        | injection h
  · intro old new e
    exact ⟨rfl, rfl⟩
  · intro stack name attr ln orig e target tln hlk hln hne
    simp only [ASTRewrite.resolve_variable, stackLookup, hlk, hln, resolveTarget]
    rw [if_neg hne]

/-- Witness for C10: with `x` bound to `Var("x", value=String("aGk="))` on
line 1 and the attribute `x.decode` on line 2, the rule rewrites the source
in place and leaves the effects untouched. -/
theorem resolve_variable_frame_witness :
    List.lookup "x" [("x", Node.Var "x" (.String "aGk=" (some 1)) (some 1))] =
      some (Node.Var "x" (.String "aGk=" (some 1)) (some 1))
    ∧ lineNoOf (Node.Var "x" (.String "aGk=" (some 1)) (some 1)) = .ok (some 1)
    ∧ ASTRewrite.resolve_variable [("x", Node.Var "x" (.String "aGk=" (some 1)) (some 1))]
        (.Attribute (.PyStr "x") "decode" (some 2) .PyNone) initEffects =
        .ok (.Attribute (.String "aGk=" (some 1)) "decode" (some 2) (.PyStr "x"),
             initEffects, false)
    ∧ (ctxReplace Node.PyNone Node.PyNone initEffects).ctxModified = true := by
  refine ⟨rfl, rfl, ?_, (resolve_variable_frame.2.1 .PyNone .PyNone initEffects).1⟩
  exact resolve_variable_frame.2.2 [("x", Node.Var "x" (.String "aGk=" (some 1)) (some 1))]
    "x" "decode" (some 2) .PyNone initEffects
    (Node.Var "x" (.String "aGk=" (some 1)) (some 1)) (some 1) rfl rfl (by decide)

/-- Counterexample to C7 as stated: with a third positional argument and a
keyword argument present, the rule still applies and folds
`String("banana").replace("a", "o")` to `String("bonono")` (the extra
arguments are ignored, they do not defeat the rule). -/
theorem replace_string_extra_args_counterexample :
    ASTRewrite.replace_string []
      (.Call (.Attribute (.String "banana" (some 3)) "replace" (some 3) .PyNone)
        [.String "a" none, .String "o" none, .String "x" none]
        [("count", .Number 1 none)] .PyNone .PyNone (some 3))
      initEffects =
      .ok (.Call (.Attribute (.String "banana" (some 3)) "replace" (some 3) .PyNone)
            [.String "a" none, .String "o" none, .String "x" none]
            [("count", .Number 1 none)] .PyNone .PyNone (some 3),
           ⟨some (.String "bonono" (some 3)), true, true⟩, false) := rfl

/-- C7 (amended): for every `Call` whose callee is an `Attribute` with
`attr == "replace"` and a `String` source and whose first two positional
arguments are `String`s, `replace_string` replaces the call with a `String`
whose value is the source value with all non-overlapping occurrences of the
first argument replaced left-to-right by the second; any additional
positional arguments and all keyword arguments are ignored and do not
defeat the rule. -/
theorem replace_string_folds :
    ∀ (stack : Stack) (sv a0 a1 : String) (sln l0 l1 fln aln : Option Int)
      (forig origc fn : Node) (restArgs : List Node) (kwargs : List (String × Node))
      (e : Effects),
      ASTRewrite.replace_string stack
        (.Call (.Attribute (.String sv sln) "replace" fln forig)
          (.String a0 l0 :: .String a1 l1 :: restArgs) kwargs fn origc aln) e =
        .ok (.Call (.Attribute (.String sv sln) "replace" fln forig)
              (.String a0 l0 :: .String a1 l1 :: restArgs) kwargs fn origc aln,
             ⟨some (.String (pyReplace sv a0 a1) aln), true, true⟩, false) := by
  intro stack sv a0 a1 sln l0 l1 fln aln forig origc fn restArgs kwargs e
  cases aln <;> rfl

/-- Counterexample to C2 as stated: decoding the single byte `b"A"` (an
invalid base64 group) with the recognized codec `base64` makes
`inline_decode` raise; the error is not caught by the rule and passes
through the per-node `ignore_error` boundary, which only catches
`RecursionError` — the rule is not a silent no-op and the traversal
aborts. -/
theorem inline_decode_error_escapes :
    ignoreError (ASTRewrite.inline_decode modelCodecs []
      (.Call (.Attribute (.Bytes [65] (some 1)) "decode" (some 1) .PyNone)
        [.PyStr "base64"] [] .PyNone .PyNone (some 1)) initEffects) =
      .error .decodeError := rfl

/-- C2 (amended): shape mismatches and an unknown codec name are caught and
leave `inline_decode` a silent no-op returning false, and `RecursionError`
is caught at the per-node boundary; but an error raised by a recognized
codec on malformed input is not caught anywhere — `inline_decode`
propagates it past the per-node handler, aborting the traversal. -/
theorem inline_decode_failure_modes :
    (∀ (codecs : CodecTable) (stack : Stack) (src a0 : Node) (restArgs : List Node)
       (kwargs : List (String × Node)) (fn orig forig : Node) (ln fln : Option Int)
       (e : Effects),
      isStrOrBytes src = true →
      (a0 :: restArgs).all isStrArg = true →
      List.lookup (pyStrOf a0) codecs = none →
      ASTRewrite.inline_decode codecs stack
        (.Call (.Attribute src "decode" fln forig) (a0 :: restArgs) kwargs fn orig ln)
        e =
        .ok (.Call (.Attribute src "decode" fln forig) (a0 :: restArgs) kwargs fn orig ln,
             e, false))
    ∧ (∀ (codecs : CodecTable) (stack : Stack) (src a0 : Node) (restArgs : List Node)
         (kwargs : List (String × Node)) (fn orig forig : Node) (ln fln : Option Int)
         (e : Effects) (f : CodecFn),
      isStrOrBytes src = true →
      (a0 :: restArgs).all isStrArg = true →
      List.lookup (pyStrOf a0) codecs = some f →
      f (bytesOf src) (restArgs.map pyStrOf) = .error () →
      ignoreError (ASTRewrite.inline_decode codecs stack
        (.Call (.Attribute src "decode" fln forig) (a0 :: restArgs) kwargs fn orig ln)
        e) = .error .decodeError)
    ∧ ignoreError (.error .recursionError) = .ok none := by
  refine ⟨?_, ?_, rfl⟩
  · intro codecs stack src a0 restArgs kwargs fn orig forig ln fln e hsrc hargs hlk
    simp [ASTRewrite.inline_decode, hsrc, hargs, hlk]
  · intro codecs stack src a0 restArgs kwargs fn orig forig ln fln e f hsrc hargs hlk hf
    simp [ASTRewrite.inline_decode, hsrc, hargs, hlk, codecsDecode, hf, ignoreError]

/-- Witness for C2 (amended): `b"A".decode("base64")` with the modelled
registry satisfies the hypotheses of the second failure mode, and the error
escapes; `utf-16` is absent from the modelled registry and yields a silent
no-op. -/
theorem inline_decode_failure_modes_witness :
    isStrOrBytes (Node.Bytes [65] (some 1)) = true
    ∧ List.lookup (pyStrOf (.PyStr "base64")) modelCodecs = some b64CodecFn
    ∧ b64CodecFn [65] [] = .error ()
    ∧ ignoreError (ASTRewrite.inline_decode modelCodecs []
        (.Call (.Attribute (.Bytes [65] (some 1)) "decode" (some 1) .PyNone)
          [.PyStr "base64"] [] .PyNone .PyNone (some 1)) initEffects) =
        .error .decodeError
    ∧ ASTRewrite.inline_decode modelCodecs []
        (.Call (.Attribute (.Bytes [65] (some 1)) "decode" (some 1) .PyNone)
          [.PyStr "utf-16"] [] .PyNone .PyNone (some 1)) initEffects =
        .ok (.Call (.Attribute (.Bytes [65] (some 1)) "decode" (some 1) .PyNone)
              [.PyStr "utf-16"] [] .PyNone .PyNone (some 1), initEffects, false) := by
  refine ⟨rfl, rfl, rfl, ?_, ?_⟩
  · exact inline_decode_failure_modes.2.1 modelCodecs [] (.Bytes [65] (some 1))
      (.PyStr "base64") [] [] .PyNone .PyNone .PyNone (some 1) (some 1) initEffects
      b64CodecFn rfl rfl rfl rfl
  · exact inline_decode_failure_modes.1 modelCodecs [] (.Bytes [65] (some 1))
      (.PyStr "utf-16") [] [] .PyNone .PyNone .PyNone (some 1) (some 1) initEffects
      rfl rfl rfl

/-- Counterexample to C3 as stated: on a raw `Subscript` mapping over
`String("ab")` with an empty slice, `string_slice` replaces the node (both
modified flags are set and the replacement is installed) but returns
`None`, so the three rules after it in the order still run on the node in
the same visit — the invoked-rule trace is all six rules, not a prefix
ending at `string_slice`. -/
theorem visit_runs_rules_after_replacement :
    visitNode modelCodecs [] ruleOrder
      (.Mapping [("_type", .PyStr "Subscript"), ("value", .String "ab" none),
                 ("slice", .Mapping [])])
      initEffects =
      .ok (.Mapping [("_type", .PyStr "Subscript"), ("value", .String "ab" none),
                     ("slice", .Mapping [])],
           ⟨some (.String "ab" none), true, true⟩,
           [.binop, .resolve_variable, .string_slice, .inline_decode,
            .rewrite_function_call, .replace_string]) := rfl

/-- C3 (amended): the rules are tried in the fixed order binop, variable
resolution, string subscript evaluation, inline codec decoding, call-target
rewriting, string replace folding; the first rule whose Python return value
is truthy ends the visit and no later rule runs.  A rule signals "applied"
only through its return value: a rule that replaces or mutates the node but
returns a falsy value (as `string_slice`, `inline_decode` and
`replace_string` do) does not end the visit, and the remaining rules still
run on that node. -/
theorem visit_first_truthy_short_circuits :
    ruleOrder = [.binop, .resolve_variable, .string_slice, .inline_decode,
                 .rewrite_function_call, .replace_string]
    ∧ (∀ (codecs : CodecTable) (stack : Stack) (r : RuleName) (rs : List RuleName)
         (node : Node) (e : Effects) (n1 : Node) (e1 : Effects),
        applyRule codecs stack r node e = .ok (n1, e1, true) →
        visitNode codecs stack (r :: rs) node e = .ok (n1, e1, [r]))
    ∧ (∀ (codecs : CodecTable) (stack : Stack) (r : RuleName) (rs : List RuleName)
         (node : Node) (e : Effects) (n1 : Node) (e1 : Effects),
        applyRule codecs stack r node e = .ok (n1, e1, false) →
        visitNode codecs stack (r :: rs) node e =
          (match visitNode codecs stack rs n1 e1 with
           | .error err => .error err
           | .ok (n2, e2, tr) => .ok (n2, e2, r :: tr))) := by
  refine ⟨rfl, ?_, ?_⟩
  · intro codecs stack r rs node e n1 e1 h
    simp [visitNode, h]
  · intro codecs stack r rs node e n1 e1 h
    simp [visitNode, h]

/-- Witness for C3 (amended), on concrete inputs: a truthy `binop` on an
`add` of two strings short-circuits the remaining rules, while a falsy
`string_slice` that replaced its node lets the tail of the rule list run. -/
theorem visit_first_truthy_short_circuits_witness :
    applyRule modelCodecs [] .binop
        (.BinOp "add" (.String "ab" none) (.String "cd" none) none) initEffects =
      .ok (.BinOp "add" (.String "ab" none) (.String "cd" none) none,
           ⟨some (.String "cdab" none), true, true⟩, true)
    ∧ visitNode modelCodecs [] (.binop :: [.resolve_variable, .string_slice])
        (.BinOp "add" (.String "ab" none) (.String "cd" none) none) initEffects =
      .ok (.BinOp "add" (.String "ab" none) (.String "cd" none) none,
           ⟨some (.String "cdab" none), true, true⟩, [.binop]) := by
  refine ⟨rfl, ?_⟩
  exact visit_first_truthy_short_circuits.2.1 modelCodecs [] .binop
    [.resolve_variable, .string_slice]
    (.BinOp "add" (.String "ab" none) (.String "cd" none) none) initEffects
    (.BinOp "add" (.String "ab" none) (.String "cd" none) none)
    ⟨some (.String "cdab" none), true, true⟩ rfl

/-- A synthesized `String` without an explicit line number inherits the
replaced node's line number. -/
theorem inherit_string_none (v : String) (old : Node) :
    getLineOpt (inheritLine (.String v none) old) = getLineOpt old := rfl

/-- A synthesized `Bytes` without an explicit line number inherits the
replaced node's line number. -/
theorem inherit_bytes_none (b : List Nat) (old : Node) :
    getLineOpt (inheritLine (.Bytes b none) old) = getLineOpt old := rfl

/-- A synthesized `String` whose explicit line number is the replaced
node's keeps it. -/
theorem inherit_string_old (v : String) (old : Node) :
    getLineOpt (inheritLine (.String v (getLineOpt old)) old) = getLineOpt old := by
  rcases h : getLineOpt old with _ | l
  · rw [inherit_string_none]
    exact h
  · rfl

/-- A synthesized `Bytes` whose explicit line number is the replaced node's
keeps it. -/
theorem inherit_bytes_old (b : List Nat) (old : Node) :
    getLineOpt (inheritLine (.Bytes b (getLineOpt old)) old) = getLineOpt old := by
  rcases h : getLineOpt old with _ | l
  · rw [inherit_bytes_none]
    exact h
  · rfl

/-- A synthesized `String` whose line number is either unset or equal to
the replaced node's ends up carrying the replaced node's line number. -/
theorem inherit_string_any (v : String) (ln : Option Int) (old : Node)
    (h : ln = none ∨ ln = getLineOpt old) :
    getLineOpt (inheritLine (.String v ln) old) = getLineOpt old := by
  rcases h with rfl | rfl
  · exact inherit_string_none v old
  · exact inherit_string_old v old

/-- A synthesized `Bytes` whose line number is either unset or equal to the
replaced node's ends up carrying the replaced node's line number. -/
theorem inherit_bytes_any (b : List Nat) (ln : Option Int) (old : Node)
    (h : ln = none ∨ ln = getLineOpt old) :
    getLineOpt (inheritLine (.Bytes b ln) old) = getLineOpt old := by
  rcases h with rfl | rfl
  · exact inherit_bytes_none b old
  · exact inherit_bytes_old b old

/-- C9: every replacement node synthesized by one of the four synthesizing
rules (binop folding, string_slice, inline_decode, replace_string) carries
the line number of the node it replaces — either set explicitly by the rule
(inline_decode copies `node.line_no`) or inherited through the replacement
capability. -/
theorem rule_replacement_line :
    ∀ (codecs : CodecTable) (stack : Stack) (r : RuleName) (node : Node)
      (e : Effects) (n1 : Node) (e1 : Effects) (b : Bool) (rep : Node),
      synthRule r = true →
      e.replacement = none →
      applyRule codecs stack r node e = .ok (n1, e1, b) →
      e1.replacement = some rep →
      getLineOpt rep = getLineOpt node := by
  intro codecs stack r node e n1 e1 b rep hr he h hrep
  cases r
  case resolve_variable => exact absurd hr (by decide)
  case rewrite_function_call => exact absurd hr (by decide)
  all_goals (
    simp only [applyRule, ASTRewrite.binop, ASTRewrite.string_slice,
      ASTRewrite.inline_decode, ASTRewrite.replace_string] at h
    repeat' split at h
    all_goals
      first
        | (subst_vars
           simp only [Except.ok.injEq, Prod.mk.injEq] at h
           obtain ⟨h1, h2, h3⟩ := h
           subst h2
           first
             | (rw [he] at hrep; exact absurd hrep (by simp))
             | (simp only [ctxReplace, Option.some.injEq] at hrep
                subst hrep
                first
                  | exact inherit_string_any _ _ _ (Or.inl rfl)
                  | exact inherit_bytes_any _ _ _ (Or.inl rfl)
                  | exact inherit_string_any _ _ _ (Or.inr rfl)
                  | exact inherit_bytes_any _ _ _ (Or.inr rfl)))
        | exact Except.noConfusion h)

/-- Witness for C9: the `binop` fold of two strings on line 7 produces a
replacement that carries line 7 — the line of the `BinOp` it replaces. -/
theorem rule_replacement_line_witness :
    synthRule .binop = true
    ∧ initEffects.replacement = none
    ∧ applyRule modelCodecs [] .binop
        (.BinOp "add" (.String "ab" (some 7)) (.String "cd" (some 7)) (some 7))
        initEffects =
        .ok (.BinOp "add" (.String "ab" (some 7)) (.String "cd" (some 7)) (some 7),
             ⟨some (.String "cdab" (some 7)), true, true⟩, true)
    ∧ getLineOpt (.String "cdab" (some 7)) =
        getLineOpt (.BinOp "add" (.String "ab" (some 7)) (.String "cd" (some 7)) (some 7)) := by
  refine ⟨rfl, rfl, rfl, ?_⟩
  exact rule_replacement_line modelCodecs [] .binop
    (.BinOp "add" (.String "ab" (some 7)) (.String "cd" (some 7)) (some 7))
    initEffects
    (.BinOp "add" (.String "ab" (some 7)) (.String "cd" (some 7)) (some 7))
    ⟨some (.String "cdab" (some 7)), true, true⟩ true (.String "cdab" (some 7))
    rfl rfl rfl rfl

/-- C8: on a raw mapping with `_type == "Subscript"` and a `String` value,
`string_slice` replaces the node by the `String` obtained from Python-style
slicing `value[lower:upper:step]`, the bounds defaulting to `0`, the length
of the value and `1` when the corresponding slice child is absent or holds
no value. -/
theorem string_slice_subscript :
    ∀ (stack : Stack) (v : String) (vln : Option Int) (lo hi st : Option Int)
      (e : Effects),
      st.getD 1 ≠ 0 →
      ASTRewrite.string_slice stack (mkSubscript v vln lo hi st) e =
        .ok (mkSubscript v vln lo hi st,
             ⟨some (.String
                (pySliceCore v (lo.getD 0) (hi.getD (v.length : Int)) (st.getD 1))
                none), true, true⟩,
             false) := by
  intro stack v vln lo hi st e hst
  rcases lo with _ | lo <;> rcases hi with _ | hi <;> rcases st with _ | st <;>
    simp_all [ASTRewrite.string_slice, mkSubscript, sliceEntry, sliceParam,
      List.lookup, pySliceStr, ctxReplace, inheritLine, getLineOpt, setLine]

/-- Witness for C8 at the spec's concrete example: the mapping
`Subscript(value=String("abcdef"), slice=lower:1, upper:5, step:2)` is
replaced by `String("bd")`. -/
theorem string_slice_subscript_witness :
    ((some 2 : Option Int).getD 1 ≠ 0)
    ∧ ASTRewrite.string_slice [] (mkSubscript "abcdef" none (some 1) (some 5) (some 2))
        initEffects =
        .ok (mkSubscript "abcdef" none (some 1) (some 5) (some 2),
             ⟨some (.String (pySliceCore "abcdef" 1 5 2) none), true, true⟩, false)
    ∧ pySliceCore "abcdef" 1 5 2 = "bd" := by
  exact ⟨by decide,
    string_slice_subscript [] "abcdef" none (some 1) (some 5) (some 2) initEffects
      (by decide), by rfl⟩

end Aura
